import Mathlib

/-!
Verification of the kprint gateway (src/api.rs, src/auth.rs) against its
natural-language specification.  The Rust source is shallowly embedded:
pure fragments become Lean functions, machine integers become `Int`/`Nat`
with explicit bounds, fallible code returns `Except`/`Option`, and the
effectful control flow of the handler is embedded as an explicit effect trace.
-/

namespace Kprint

/-! ### Rust `i32::from_str` (used by `term.parse()` in `parse_one_in_range`) -/

/-- Error kinds of Rust `core::num::ParseIntError` relevant to `i32` parsing. -/
inductive ParseIntErrorKind where
  | empty
  | invalidDigit
  | posOverflow
  | negOverflow
deriving DecidableEq, Repr

/-- Accumulate the value of a decimal digit string; `none` on a non-digit.
Embeds the digit loop of Rust `from_str_radix` (base 10). -/
def digitsVal (acc : Nat) : List Char → Option Nat
  | [] => some acc
  | c :: rest =>
      if c.isDigit then digitsVal (acc * 10 + (c.toNat - '0'.toNat)) rest
      else none

/-- Parse an optionally signed digit string into an `i32` value, with the
overflow bounds of `i32` (`-2^31 ≤ n ≤ 2^31 - 1`). -/
def parseSignedDigits (neg : Bool) (l : List Char) : Except ParseIntErrorKind Int :=
  match l with
  | [] => .error .invalidDigit
  | _ :: _ =>
      match digitsVal 0 l with
      | none => .error .invalidDigit
      | some n =>
          if neg then
            if (n : Int) ≤ 2 ^ 31 then .ok (-(n : Int)) else .error .negOverflow
          else
            if (n : Int) ≤ 2 ^ 31 - 1 then .ok (n : Int) else .error .posOverflow

/-- Rust `i32::from_str`: optional sign, then decimal digits, with overflow
checked against the `i32` range. -/
def parseI32 (s : String) : Except ParseIntErrorKind Int :=
  match s.data with
  | [] => .error .empty
  | '+' :: rest => parseSignedDigits false rest
  | '-' :: rest => parseSignedDigits true rest
  | l => parseSignedDigits false l

/-! ### src/api.rs lines 29-44 and 101-112: range parsing -/

/-- `ParseRangeError` of src/api.rs: the integer-parse cause and the offending
string stored in `bad_range`. -/
structure ParseRangeError where
  error : ParseIntErrorKind
  bad_range : String
deriving DecidableEq, Repr

/-- `parse_one_in_range` (src/api.rs lines 101-106): parse one endpoint,
recording the endpoint string itself as `bad_range` on failure. -/
def parse_one_in_range (term : String) : Except ParseRangeError Int :=
  match parseI32 term with
  | .ok n => .ok n
  | .error e => .error ⟨e, term⟩

/-- Rust `str::split_once(sep)` on the character list: split at the first
occurrence of `sep`, or `none` when absent. -/
def splitOnceList (sep : Char) : List Char → Option (List Char × List Char)
  | [] => none
  | c :: rest =>
      if c = sep then some ([], rest)
      else (splitOnceList sep rest).map (fun p => (c :: p.1, p.2))

/-- Rust `str::split_once(sep)`. -/
def split_once (sep : Char) (s : String) : Option (String × String) :=
  (splitOnceList sep s.data).map (fun p => (⟨p.1⟩, ⟨p.2⟩))

/-- The two endpoint substrings of a term:
`range.split_once('-').unwrap_or((range, range))` (src/api.rs line 109). -/
def rangeEndpoints (range : String) : String × String :=
  (split_once '-' range).getD (range, range)

/-- `parse_range` (src/api.rs lines 108-112): split the term at the first
dash (a dashless term stands for both endpoints), then parse each endpoint,
the start first. -/
def parse_range (range : String) : Except ParseRangeError (Int × Int) :=
  let p := rangeEndpoints range
  match parse_one_in_range p.1 with
  | .error e => .error e
  | .ok s =>
      match parse_one_in_range p.2 with
      | .error e => .error e
      | .ok e => .ok (s, e)

/-! ### src/api.rs lines 133-148: term splitting, filtering, collection -/

/-- The filter closure of src/api.rs lines 139-144: keep parse errors, and
keep a parsed pair only when `end > start`. -/
def keepEntry : Except ParseRangeError (Int × Int) → Bool
  | .error _ => true
  | .ok r => r.2 > r.1

/-- `collect::<Result<Vec<_>, _>>()`: the first error propagates, otherwise
the ok values are gathered in order. -/
def collectRanges : List (Except ParseRangeError (Int × Int)) →
    Except ParseRangeError (List (Int × Int))
  | [] => .ok []
  | .error e :: _ => .error e
  | .ok r :: rest =>
      match collectRanges rest with
      | .error e => .error e
      | .ok l => .ok (r :: l)

/-- The Unicode `White_Space` property, the exact character set removed by
Rust `str::trim` (`char::is_whitespace`): U+0009..U+000D (tab, LF, VT, FF,
CR), space, NEL, NBSP, the Ogham space mark, U+2000..U+200A, the line and
paragraph separators, narrow NBSP, the medium mathematical space and the
ideographic space. -/
def isWs (c : Char) : Bool :=
  let n := c.toNat
  (9 ≤ n && n ≤ 13) || n == 32 || n == 0x85 || n == 0xA0 || n == 0x1680 ||
    (0x2000 ≤ n && n ≤ 0x200A) || n == 0x2028 || n == 0x2029 ||
    n == 0x202F || n == 0x205F || n == 0x3000

/-- Rust `str::trim` on the character list: whitespace removed from both
ends. -/
def trimList (l : List Char) : List Char :=
  ((l.dropWhile isWs).reverse.dropWhile isWs).reverse

/-- Rust `str::trim`. -/
def trim (s : String) : String := ⟨trimList s.data⟩

/-- Rust `str::split(',')` on the character list: split at every comma,
keeping empty pieces. -/
def splitCommaList : List Char → List (List Char)
  | [] => [[]]
  | c :: rest =>
      if c = ',' then [] :: splitCommaList rest
      else
        match splitCommaList rest with
        | [] => [[c]]
        | h :: t => (c :: h) :: t

/-- Rust `options.pages.split(',')`. -/
def splitComma (s : String) : List String :=
  (splitCommaList s.data).map (fun l => ⟨l⟩)

/-- The per-term parse results after the filter of lines 137-144: split the
pages string on commas, trim each term, parse it, and keep an entry only
when `keepEntry` holds. -/
def parsedEntries (pages : String) : List (Except ParseRangeError (Int × Int)) :=
  ((splitComma pages).map (fun term => parse_range (trim term))).filter keepEntry

/-- src/api.rs lines 134-148: the kept input ranges.  A pages string that
trims to empty short-circuits to the empty list; otherwise the filtered
per-term results are collected, propagating the first parse error. -/
def parseKeptRanges (pages : String) : Except ParseRangeError (List (Int × Int)) :=
  if trim pages ≠ "" then collectRanges (parsedEntries pages) else .ok []

/-! ### src/api.rs lines 149-162: sort and coalesce -/

/-- The key order of `sort_by_key(|(start, _end)| *start)`. -/
def startLE (a b : Int × Int) : Prop := a.1 ≤ b.1

instance : DecidableRel startLE := fun a b => inferInstanceAs (Decidable (a.1 ≤ b.1))

instance : IsTotal (Int × Int) startLE := ⟨fun a b => le_total a.1 b.1⟩

instance : IsTrans (Int × Int) startLE := ⟨fun _ _ _ h h' => le_trans h h'⟩

/-- Rust `Vec::sort_by_key` on the range start: a stable sort by the first
component, embedded as stable insertion sort. -/
def sortByStart (l : List (Int × Int)) : List (Int × Int) :=
  l.insertionSort startLE

/-- The accumulator loop of `Itertools::coalesce` with the closure of
src/api.rs lines 152-159: the held range `acc` merges with the next range
into `(prev_start, this_end)` whenever `prev_end >= this_start`, otherwise
`acc` is emitted and the next range becomes the accumulator. -/
def coalesceAux (acc : Int × Int) : List (Int × Int) → List (Int × Int)
  | [] => [acc]
  | (ts, te) :: rest =>
      if acc.2 ≥ ts then coalesceAux (acc.1, te) rest
      else acc :: coalesceAux (ts, te) rest

/-- `Itertools::coalesce` of src/api.rs lines 150-159. -/
def coalesce : List (Int × Int) → List (Int × Int)
  | [] => []
  | r :: rest => coalesceAux r rest

/-- The sort-then-coalesce stage applied to the already-filtered kept
ranges (src/api.rs lines 149-159). -/
def mergeStep (l : List (Int × Int)) : List (Int × Int) :=
  coalesce (sortByStart l)

/-- The whole merge step on a list of parsed ranges: filter (`end > start`),
stable sort by start, coalesce. -/
def mergeStepFull (l : List (Int × Int)) : List (Int × Int) :=
  coalesce (sortByStart (l.filter (fun r => r.2 > r.1)))

/-- The merged page ranges the handler computes from the `pages` query
parameter (src/api.rs lines 134-159). -/
def mergeRanges (pages : String) : Except ParseRangeError (List (Int × Int)) :=
  match parseKeptRanges pages with
  | .error e => .error e
  | .ok l => .ok (mergeStep l)

/-- Page `n` is covered by some inclusive range of `l`. -/
def coveredP (l : List (Int × Int)) (n : Int) : Prop :=
  ∃ r ∈ l, r.1 ≤ n ∧ n ≤ r.2

instance (l : List (Int × Int)) (n : Int) : Decidable (coveredP l n) :=
  inferInstanceAs (Decidable (∃ r ∈ l, _ ∧ _))

instance {ε α : Type} [DecidableEq ε] [DecidableEq α] : DecidableEq (Except ε α)
  | .ok a, .ok b =>
      if h : a = b then .isTrue (by rw [h]) else .isFalse (by simp [h])
  | .ok _, .error _ => .isFalse (by simp)
  | .error _, .ok _ => .isFalse (by simp)
  | .error a, .error b =>
      if h : a = b then .isTrue (by rw [h]) else .isFalse (by simp [h])

/-! ### IPP values, attributes, and the print options (src/api.rs lines 74-99, 160-207) -/

/-- The `IppValue` variants the handler constructs or inspects (subset of
the external `ipp` crate, modelled at the boundary). -/
inductive IppValue where
  | Integer : Int → IppValue
  | RangeOfInteger : Int → Int → IppValue
  | Keyword : String → IppValue
  | UriVal : String → IppValue
deriving DecidableEq, Repr

/-- A named IPP attribute (external `ipp` crate, modelled at the boundary). -/
structure IppAttribute where
  name : String
  value : IppValue
deriving DecidableEq, Repr

/-- `IppValue::as_uri`: the string of a URI-typed value, otherwise `None`. -/
def asUri : IppValue → Option String
  | .UriVal s => some s
  | _ => none

/-- `DuplexMode` (src/api.rs lines 74-80). -/
inductive DuplexMode where
  | TwoSidedLongEdge
  | TwoSidedShortEdge
  | OneSided
deriving DecidableEq, Repr

/-- `ColorMode` (src/api.rs lines 82-87). -/
inductive ColorMode where
  | Grayscale
  | Color
deriving DecidableEq, Repr

/-- `serde_variant::to_variant_name` under `rename_all = "kebab-case"` for
`DuplexMode`. -/
def duplexVariantName : DuplexMode → String
  | .TwoSidedLongEdge => "two-sided-long-edge"
  | .TwoSidedShortEdge => "two-sided-short-edge"
  | .OneSided => "one-sided"

/-- `serde_variant::to_variant_name` under `rename_all = "kebab-case"` for
`ColorMode`. -/
def colorVariantName : ColorMode → String
  | .Grayscale => "grayscale"
  | .Color => "color"

/-- `PrintOptions` (src/api.rs lines 89-99).  `copies` is a `u32`, carried
as a `Nat` together with the bound `copies < 2^32` where it matters. -/
structure PrintOptions where
  sides : DuplexMode
  color_mode : ColorMode
  pages : String
  copies : Nat
  title : String
deriving DecidableEq, Repr

/-- The Rust cast `copies as i32`: a `u32` value reinterpreted as a signed
32-bit integer (two-sided complement wrap at `2^31`). -/
def i32FromU32 (n : Nat) : Int :=
  if n < 2 ^ 31 then (n : Int) else (n : Int) - 2 ^ 32

/-- src/api.rs lines 160-162: one `page-ranges` attribute per merged range,
built by mapping to `IppValue::RangeOfInteger` and then to an attribute. -/
def pageRangeAttrs (merged : List (Int × Int)) : List IppAttribute :=
  (merged.map (fun r => IppValue.RangeOfInteger r.1 r.2)).map
    (fun v => IppAttribute.mk "page-ranges" v)

/-- The print-job operation assembled by the builder (src/api.rs lines
183-207): requesting user name, job title, and the attribute list in
builder order. -/
structure IppOperation where
  userName : String
  jobTitle : String
  attributes : List IppAttribute
deriving DecidableEq, Repr

/-- The attribute list of the built operation, in the order of src/api.rs
lines 186-206: `sides`, `print-color-mode`, the page ranges, `copies`. -/
def jobAttributes (options : PrintOptions) (merged : List (Int × Int)) :
    List IppAttribute :=
  [IppAttribute.mk "sides" (.Keyword (duplexVariantName options.sides)),
   IppAttribute.mk "print-color-mode" (.Keyword (colorVariantName options.color_mode))]
  ++ pageRangeAttrs merged
  ++ [IppAttribute.mk "copies" (.Integer (i32FromU32 options.copies))]

/-- The built operation (src/api.rs lines 183-207). -/
def buildOperation (uname : String) (options : PrintOptions)
    (merged : List (Int × Int)) : IppOperation :=
  { userName := uname
    jobTitle := options.title
    attributes := jobAttributes options merged }

/-! ### Job-link extraction (src/api.rs lines 211-227) -/

/-- The parts of an `http::Uri` the handler touches (external crate,
modelled at the boundary): an optional scheme and the remainder after
`://`. -/
structure UriParts where
  scheme : Option String
  rest : String
deriving DecidableEq, Repr

/-- Split a character list at the first occurrence of `://`. -/
def splitSchemeList : List Char → Option (List Char × List Char)
  | [] => none
  | ':' :: '/' :: '/' :: rest => some ([], rest)
  | c :: rest => (splitSchemeList rest).map (fun p => (c :: p.1, p.2))

/-- `Uri::from_str`, modelled at the boundary for absolute URIs: a string
of the shape `scheme://rest` parses into its parts, anything else is
rejected. -/
def parseUri (s : String) : Option UriParts :=
  (splitSchemeList s.data).map (fun p => ⟨some ⟨p.1⟩, ⟨p.2⟩⟩)

/-- Rendering of a `UriParts` back to a string. -/
def uriToString (u : UriParts) : String :=
  match u.scheme with
  | some sch => sch ++ "://" ++ u.rest
  | none => u.rest

/-- src/api.rs lines 212-215: the first group containing a `job-uri`
attribute yields that attribute (`find_map` over the groups, keyed map
lookup inside each group). -/
def findJobUriAttr (groups : List (List IppAttribute)) : Option IppAttribute :=
  groups.findSome? (fun g => g.find? (fun a => a.name == "job-uri"))

/-- src/api.rs lines 212-227: extract the job link.  The value of the found attribute must be URI-typed and parse as a URI; its scheme is then overwritten
with `https` and the URI rendered back to a string. -/
def extractJobLink (groups : List (List IppAttribute)) : Option String :=
  (((findJobUriAttr groups).bind (fun a => (asUri a.value).bind parseUri)).map
      (fun u => { u with scheme := some "https" })).map uriToString

/-! ### The print handler (src/api.rs lines 114-238) -/

/-- The claims of the verified identity, restricted to what the handler reads:
`preferred_username` is an optional OIDC claim. -/
structure Claims where
  preferredUsername : Option String
deriving DecidableEq, Repr

/-- `KprintError` (src/api.rs lines 46-54).  An Actix error is carried as
its status code; `ErrorNotFound` produces status 404. -/
inductive KprintError where
  | internalError
  | actix : Nat → KprintError
  | pageRange : ParseRangeError → KprintError
deriving DecidableEq, Repr

/-- `ResponseError::status_code` for `KprintError` (src/api.rs lines
57-63): 500, the wrapped Actix status, and 412 (precondition failed). -/
def statusCode : KprintError → Nat
  | .internalError => 500
  | .actix s => s
  | .pageRange _ => 412

/-- `SuccessReply` (src/api.rs lines 23-27). -/
structure SuccessReply where
  message : String
  job_link : Option String
deriving DecidableEq, Repr

/-- Observable effects of the handler, in program order: registry lookup,
the first poll of the request body (the forwarding task of lines 166-181),
and the submission of the built operation (line 210). -/
inductive Effect where
  | lookup : String → Effect
  | readBody
  | submit : IppOperation → Effect
deriving DecidableEq, Repr

/-- Handler outcome: a panic (an `unwrap` failure), an error response, or a
success reply. -/
inductive HandlerOutcome where
  | panicked
  | errored : KprintError → HandlerOutcome
  | ok : SuccessReply → HandlerOutcome
deriving DecidableEq, Repr

/-- A handler run: the ordered effect trace and the outcome. -/
structure HandlerResult where
  effects : List Effect
  outcome : HandlerOutcome
deriving DecidableEq, Repr

/-- The `print` handler (src/api.rs lines 114-238) on the success path of
authentication, under the default logging configuration.  `printers` is
the key set of the registry, `response` the attribute groups of the
backend (the backend transport is modelled as succeeding; its failure path
is the opaque 500 of the spec).  The `preferred_username` unwrap of line
124 sits inside a `log::debug!` argument, which the `log` macros evaluate
only when debug logging is enabled; `env_logger::init()` defaults to the
Error level, so that unwrap never runs and the first effective unwrap is
the `user_name` call of line 184.  Control flow in source order: the
registry lookup returns 404 on a missing name before anything else happens
(lines 126-131), the page ranges are parsed and merged (lines 134-162,
propagating a 412 parse error), the body-forwarding task is spawned
(lines 166-181), and only then does the operation builder unwrap
`preferred_username` (line 184, panicking when the claim is absent)
before the operation is submitted. -/
def printHandler (printers : List String) (printerName : String)
    (user : Claims) (options : PrintOptions)
    (response : List (List IppAttribute)) : HandlerResult :=
  if printerName ∈ printers then
    match mergeRanges options.pages with
    | .error e =>
        { effects := [.lookup printerName]
          outcome := .errored (.pageRange e) }
    | .ok merged =>
        match user.preferredUsername with
        | none =>
            { effects := [.lookup printerName, .readBody]
              outcome := .panicked }
        | some uname =>
            { effects := [.lookup printerName, .readBody,
                          .submit (buildOperation uname options merged)]
              outcome := .ok { message := "lmao"
                               job_link := extractJobLink response } }
  else
    { effects := [.lookup printerName]
      outcome := .errored (.actix 404) }

/-! ### The auth gate (src/auth.rs lines 111-153) -/

/-- An HTTP response, reduced to status and body. -/
structure HttpResponse where
  status : Nat
  body : String
deriving DecidableEq, Repr

/-- `HttpResponse::Unauthorized().finish()`: status 401, empty body. -/
def unauthorizedResponse : HttpResponse := { status := 401, body := "" }

/-- Rust `str::trim_start_matches("Bearer ")` on the character list: every
leading occurrence of the pattern is removed. -/
def stripBearerList : List Char → List Char
  | 'B' :: 'e' :: 'a' :: 'r' :: 'e' :: 'r' :: ' ' :: rest => stripBearerList rest
  | l => l

/-- `x.trim_start_matches("Bearer ")` (src/auth.rs line 118). -/
def stripBearer (s : String) : String := ⟨stripBearerList s.data⟩

/-- `CSHAuthService::call` (src/auth.rs lines 112-153).  The header is
`none` when absent, `some none` when present but not valid UTF-8
(`to_str` fails), `some (some x)` otherwise.  Token parsing and
verification (`CshIdToken::from_str` and `into_claims`, external
openidconnect calls) are modelled at the boundary as one oracle from the
token string to the verified claims.  Returns the response and whether the
wrapped handler was invoked. -/
def gateCall (parseAndVerify : String → Option Claims)
    (handler : Claims → HttpResponse)
    (authorization : Option (Option String)) : HttpResponse × Bool :=
  match authorization with
  | some (some x) =>
      match parseAndVerify (stripBearer x) with
      | some claims => (handler claims, true)
      | none => (unauthorizedResponse, false)
  | _ => (unauthorizedResponse, false)

/-- The header shape the spec calls the `Bearer <token>` form. -/
def isBearerForm (value : String) : Prop :=
  ∃ t : String, value = "Bearer " ++ t

/-! ### Lemmas about the coalesce loop -/

/-- The coalesce loop emits a nonempty list whose head keeps the
start of the accumulator. -/
lemma coalesceAux_exists_head :
    ∀ (l : List (Int × Int)) (acc : Int × Int),
      ∃ e t, coalesceAux acc l = (acc.1, e) :: t := by
  intro l
  induction l with
  | nil =>
      intro acc
      exact ⟨acc.2, [], by simp [coalesceAux]⟩
  | cons hd tl ih =>
      intro acc
      obtain ⟨ts, te⟩ := hd
      by_cases h : acc.2 ≥ ts
      · simpa [coalesceAux, h] using ih (acc.1, te)
      · exact ⟨acc.2, coalesceAux (ts, te) tl, by simp [coalesceAux, h]⟩

/-- Every page covered by the output of the coalesce loop was covered by the
accumulator or by the remaining input. -/
lemma coalesceAux_cover :
    ∀ (l : List (Int × Int)) (acc : Int × Int) (n : Int),
      coveredP (coalesceAux acc l) n → coveredP (acc :: l) n := by
  intro l
  induction l with
  | nil =>
      intro acc n hc
      simpa [coalesceAux, coveredP] using hc
  | cons hd tl ih =>
      intro acc n hc
      obtain ⟨a1, a2⟩ := acc
      obtain ⟨ts, te⟩ := hd
      by_cases h : a2 ≥ ts
      · simp only [coalesceAux, h, if_pos] at hc
        have hc' := ih (a1, te) n hc
        simp only [coveredP, List.mem_cons] at hc' ⊢
        obtain ⟨r, hr, hn⟩ := hc'
        rcases hr with rfl | hr
        · by_cases hle : n ≤ a2
          · exact ⟨(a1, a2), Or.inl rfl, by simp at hn ⊢; omega⟩
          · exact ⟨(ts, te), Or.inr (Or.inl rfl), by simp at hn ⊢; omega⟩
        · exact ⟨r, Or.inr (Or.inr hr), hn⟩
      · simp only [coalesceAux, h, if_neg, not_false_iff] at hc
        simp only [coveredP, List.mem_cons] at hc ⊢
        obtain ⟨r, hr, hn⟩ := hc
        rcases hr with rfl | hr
        · exact ⟨(a1, a2), Or.inl rfl, hn⟩
        · have hc' := ih (ts, te) n ⟨r, hr, hn⟩
          simp only [coveredP, List.mem_cons] at hc'
          obtain ⟨r', hr', hn'⟩ := hc'
          exact ⟨r', Or.inr hr', hn'⟩

/-- On a start-sorted input of valid ranges, the coalesce loop emits valid
ranges that are pairwise separated (each range ends strictly before the
next begins). -/
lemma coalesceAux_valid_sep :
    ∀ (l : List (Int × Int)) (acc : Int × Int),
      (acc :: l).Pairwise startLE → (∀ r ∈ acc :: l, r.1 < r.2) →
      (∀ r ∈ coalesceAux acc l, r.1 < r.2) ∧
        (coalesceAux acc l).Chain' (fun a b => a.2 < b.1) := by
  intro l
  induction l with
  | nil =>
      intro acc _ hv
      refine ⟨?_, by simp [coalesceAux]⟩
      intro r hr
      simp only [coalesceAux, List.mem_singleton] at hr
      exact hr ▸ hv acc (List.mem_cons_self _ _)
  | cons hd tl ih =>
      intro acc hp hv
      obtain ⟨ts, te⟩ := hd
      rw [List.pairwise_cons] at hp
      obtain ⟨hacc, hp'⟩ := hp
      by_cases h : acc.2 ≥ ts
      · simp only [coalesceAux, h, if_pos]
        apply ih (acc.1, te)
        · rw [List.pairwise_cons]
          refine ⟨?_, (List.pairwise_cons.1 hp').2⟩
          intro b hb
          exact hacc b (List.mem_cons_of_mem _ hb)
        · intro r hr
          rcases List.mem_cons.1 hr with rfl | hr
          · have h1 : startLE acc (ts, te) := hacc _ (List.mem_cons_self _ _)
            have h2 : ts < te := hv (ts, te) (by simp)
            simp only [startLE] at h1
            simp only []
            omega
          · exact hv r (List.mem_cons_of_mem _ (List.mem_cons_of_mem _ hr))
      · simp only [coalesceAux, h, if_neg, not_false_iff]
        have htl : ((ts, te) :: tl).Pairwise startLE := hp'
        have hvtl : ∀ r ∈ (ts, te) :: tl, r.1 < r.2 := fun r hr =>
          hv r (List.mem_cons_of_mem _ hr)
        obtain ⟨hv', hc'⟩ := ih (ts, te) htl hvtl
        refine ⟨?_, ?_⟩
        · intro r hr
          rcases List.mem_cons.1 hr with rfl | hr
          · exact hv r (List.mem_cons_self _ _)
          · exact hv' r hr
        · rw [List.chain'_cons']
          refine ⟨?_, hc'⟩
          intro y hy
          obtain ⟨e, t, het⟩ := coalesceAux_exists_head tl (ts, te)
          rw [het] at hy
          simp only [List.head?_cons, Option.mem_def, Option.some.injEq] at hy
          subst hy
          simp only []
          omega

/-- `coalesce` of a start-sorted list of valid ranges: all output ranges
valid and pairwise separated. -/
lemma coalesce_valid_sep (l : List (Int × Int))
    (hp : l.Pairwise startLE) (hv : ∀ r ∈ l, r.1 < r.2) :
    (∀ r ∈ coalesce l, r.1 < r.2) ∧
      (coalesce l).Chain' (fun a b => a.2 < b.1) := by
  cases l with
  | nil => exact ⟨by simp [coalesce], by simp [coalesce]⟩
  | cons hd tl => exact coalesceAux_valid_sep tl hd hp hv

/-- `coalesce` never covers a page its input did not cover. -/
lemma coalesce_cover (l : List (Int × Int)) (n : Int)
    (h : coveredP (coalesce l) n) : coveredP l n := by
  cases l with
  | nil => simpa [coalesce] using h
  | cons hd tl => exact coalesceAux_cover tl hd n h

/-- On an already separated list the coalesce loop is the identity. -/
lemma coalesceAux_of_sep :
    ∀ (l : List (Int × Int)) (acc : Int × Int),
      (acc :: l).Chain' (fun a b => a.2 < b.1) → coalesceAux acc l = acc :: l := by
  intro l
  induction l with
  | nil => intro acc _; simp [coalesceAux]
  | cons hd tl ih =>
      intro acc hc
      obtain ⟨ts, te⟩ := hd
      rw [List.chain'_cons] at hc
      have h : ¬ acc.2 ≥ ts := by
        have := hc.1
        simp only [] at this
        omega
      simp only [coalesceAux, h, if_neg, not_false_iff]
      rw [ih (ts, te) hc.2]

/-- `coalesce` of a separated list is the identity. -/
lemma coalesce_of_sep (l : List (Int × Int))
    (hc : l.Chain' (fun a b => a.2 < b.1)) : coalesce l = l := by
  cases l with
  | nil => rfl
  | cons hd tl => exact coalesceAux_of_sep tl hd hc

/-! ### Lemmas about the stable sort by start -/

lemma sortByStart_perm (l : List (Int × Int)) : List.Perm (sortByStart l) l :=
  List.perm_insertionSort startLE l

lemma sortByStart_sorted (l : List (Int × Int)) :
    (sortByStart l).Pairwise startLE :=
  List.sorted_insertionSort startLE l

lemma sortByStart_eq_self (l : List (Int × Int)) (h : l.Pairwise startLE) :
    sortByStart l = l :=
  List.Sorted.insertionSort_eq h

/-! ### Separated lists are strictly sorted -/

/-- In a separated list of valid ranges, the first range ends before every
later range begins. -/
lemma sep_all :
    ∀ (l : List (Int × Int)) (a : Int × Int),
      (∀ r ∈ l, r.1 < r.2) → (a :: l).Chain' (fun x y => x.2 < y.1) →
      ∀ b ∈ l, a.2 < b.1 := by
  intro l
  induction l with
  | nil => simp
  | cons c tl ih =>
      intro a hv hc b hb
      rw [List.chain'_cons] at hc
      rcases List.mem_cons.1 hb with rfl | hb
      · exact hc.1
      · have h1 := ih c (fun r hr => hv r (List.mem_cons_of_mem _ hr)) hc.2 b hb
        have h2 : c.1 < c.2 := hv c (List.mem_cons_self _ _)
        have h3 := hc.1
        omega

/-- A separated list of valid ranges is strictly ascending by start. -/
lemma sep_valid_pairwise_lt :
    ∀ (l : List (Int × Int)),
      (∀ r ∈ l, r.1 < r.2) → l.Chain' (fun a b => a.2 < b.1) →
      l.Pairwise (fun a b => a.1 < b.1) := by
  intro l
  induction l with
  | nil => simp
  | cons a tl ih =>
      intro hv hc
      rw [List.pairwise_cons]
      constructor
      · intro b hb
        have h1 := sep_all tl a (fun r hr => hv r (List.mem_cons_of_mem _ hr)) hc b hb
        have h2 : a.1 < a.2 := hv a (List.mem_cons_self _ _)
        omega
      · exact ih (fun r hr => hv r (List.mem_cons_of_mem _ hr)) hc.tail

/-! ### The merge step: validity, separation, covering, idempotence -/

/-- The sort-then-coalesce stage on a list of valid ranges: all output
ranges valid and pairwise separated. -/
lemma mergeStep_valid_sep (l : List (Int × Int)) (hv : ∀ r ∈ l, r.1 < r.2) :
    (∀ r ∈ mergeStep l, r.1 < r.2) ∧
      (mergeStep l).Chain' (fun a b => a.2 < b.1) := by
  apply coalesce_valid_sep
  · exact sortByStart_sorted l
  · intro r hr
    exact hv r ((sortByStart_perm l).mem_iff.1 hr)

/-- The sort-then-coalesce stage never covers a page outside the union of the input. -/
lemma mergeStep_cover (l : List (Int × Int)) (n : Int)
    (h : coveredP (mergeStep l) n) : coveredP l n := by
  obtain ⟨r, hr, hn⟩ := coalesce_cover _ n h
  exact ⟨r, (sortByStart_perm l).mem_iff.1 hr, hn⟩

/-- The full merge step (filter, sort, coalesce) emits valid, separated
ranges. -/
lemma mergeStepFull_valid_sep (l : List (Int × Int)) :
    (∀ r ∈ mergeStepFull l, r.1 < r.2) ∧
      (mergeStepFull l).Chain' (fun a b => a.2 < b.1) := by
  apply mergeStep_valid_sep
  intro r hr
  have := (List.mem_filter.1 hr).2
  simpa using this

/-- Idempotence of the full merge step. -/
lemma mergeStepFull_idem_aux (l : List (Int × Int)) :
    mergeStepFull (mergeStepFull l) = mergeStepFull l := by
  obtain ⟨hv, hc⟩ := mergeStepFull_valid_sep l
  have hlt := sep_valid_pairwise_lt (mergeStepFull l) hv hc
  have hle : (mergeStepFull l).Pairwise startLE :=
    hlt.imp (fun h => le_of_lt h)
  have h1 : (mergeStepFull l).filter (fun r => r.2 > r.1) = mergeStepFull l :=
    List.filter_eq_self.mpr (fun r hr => by simpa using hv r hr)
  show coalesce (sortByStart ((mergeStepFull l).filter _)) = mergeStepFull l
  rw [h1, sortByStart_eq_self _ hle, coalesce_of_sep _ hc]

/-- A merged output is a fixed point of the sort-then-coalesce stage as
well. -/
lemma mergeStep_fixed (l : List (Int × Int))
    (hv : ∀ r ∈ l, r.1 < r.2) (hc : l.Chain' (fun a b => a.2 < b.1)) :
    mergeStep l = l := by
  have hle : l.Pairwise startLE :=
    (sep_valid_pairwise_lt l hv hc).imp (fun h => le_of_lt h)
  show coalesce (sortByStart l) = l
  rw [sortByStart_eq_self _ hle, coalesce_of_sep _ hc]

/-! ### Collection and the kept ranges -/

/-- Every range collected by `collect::<Result<...>>` came from an ok entry
of the input. -/
lemma collectRanges_mem :
    ∀ (es : List (Except ParseRangeError (Int × Int))) (l : List (Int × Int)),
      collectRanges es = .ok l → ∀ r ∈ l, Except.ok r ∈ es := by
  intro es
  induction es with
  | nil =>
      intro l h r hr
      simp only [collectRanges] at h
      cases h
      simp at hr
  | cons hd tl ih =>
      intro l h r hr
      cases hd with
      | error e => simp [collectRanges] at h
      | ok r' =>
          simp only [collectRanges] at h
          cases htl : collectRanges tl with
          | error e => rw [htl] at h; cases h
          | ok l' =>
              rw [htl] at h
              cases h
              rcases List.mem_cons.1 hr with rfl | hr
              · exact List.mem_cons_self _ _
              · exact List.mem_cons_of_mem _ (ih l' htl r hr)

/-- An error entry anywhere in the input makes the collection fail. -/
lemma collectRanges_error_of_mem :
    ∀ (es : List (Except ParseRangeError (Int × Int))) (e : ParseRangeError),
      Except.error e ∈ es → ∃ e', collectRanges es = .error e' := by
  intro es
  induction es with
  | nil => intro e he; simp at he
  | cons hd tl ih =>
      intro e he
      cases hd with
      | error e0 => exact ⟨e0, rfl⟩
      | ok r =>
          rcases List.mem_cons.1 he with h | h
          · cases h
          · obtain ⟨e', he'⟩ := ih e h
            exact ⟨e', by simp [collectRanges, he']⟩

/-- Every kept range satisfies the literal filter `end > start`. -/
lemma parseKeptRanges_valid (pages : String) (l : List (Int × Int))
    (h : parseKeptRanges pages = .ok l) : ∀ r ∈ l, r.1 < r.2 := by
  intro r hr
  unfold parseKeptRanges at h
  split at h
  · have hm := collectRanges_mem _ _ h r hr
    have hk := (List.mem_filter.1 hm).2
    simpa [keepEntry] using hk
  · cases h
    simp at hr

/-- The merged result is the sort-then-coalesce stage applied to the kept
ranges. -/
lemma mergeRanges_eq (pages : String) (kept : List (Int × Int))
    (h : parseKeptRanges pages = .ok kept) :
    mergeRanges pages = .ok (mergeStep kept) := by
  unfold mergeRanges
  rw [h]

/-- A pages string that trims to empty merges to the empty sequence. -/
lemma mergeRanges_of_trim_empty (pages : String) (h : trim pages = "") :
    mergeRanges pages = .ok [] := by
  unfold mergeRanges parseKeptRanges
  rw [if_neg (by simp [h])]
  rfl

/-! ### What a range-parse error names -/

/-- A failing endpoint parse records exactly the endpoint substring in
`bad_range`. -/
lemma parse_one_in_range_names (term : String) (e : ParseRangeError)
    (h : parse_one_in_range term = .error e) : e.bad_range = term := by
  unfold parse_one_in_range at h
  cases hp : parseI32 term with
  | ok n => rw [hp] at h; cases h
  | error k => rw [hp] at h; cases h; rfl

/-- A failing term parse records one of the two endpoint substrings of the term,
never the whole dashed term. -/
lemma parse_range_names (range : String) (e : ParseRangeError)
    (h : parse_range range = .error e) :
    e.bad_range = (rangeEndpoints range).1 ∨
      e.bad_range = (rangeEndpoints range).2 := by
  simp only [parse_range] at h
  cases h1 : parse_one_in_range (rangeEndpoints range).1 with
  | error e1 =>
      rw [h1] at h
      cases h
      exact Or.inl (parse_one_in_range_names _ _ h1)
  | ok s =>
      rw [h1] at h
      cases h2 : parse_one_in_range (rangeEndpoints range).2 with
      | error e2 =>
          rw [h2] at h
          cases h
          exact Or.inr (parse_one_in_range_names _ _ h2)
      | ok t => rw [h2] at h; cases h

/-! ### Error propagation through the pipeline -/

/-- A term that fails to parse stays in the filtered entry list. -/
lemma parsedEntries_error_mem (pages t : String) (e : ParseRangeError)
    (ht : t ∈ splitComma pages) (he : parse_range (trim t) = .error e) :
    Except.error e ∈ parsedEntries pages := by
  unfold parsedEntries
  refine List.mem_filter.2 ⟨?_, by simp [keepEntry]⟩
  exact List.mem_map.2 ⟨t, ht, by rw [he]⟩

/-- Any term-parse failure makes the whole merge fail with some range-parse
error. -/
lemma mergeRanges_error (pages : String) (hne : trim pages ≠ "")
    (h : ∃ t ∈ splitComma pages, ∃ e, parse_range (trim t) = .error e) :
    ∃ e', mergeRanges pages = .error e' := by
  obtain ⟨t, ht, e, he⟩ := h
  obtain ⟨e', he'⟩ :=
    collectRanges_error_of_mem _ e (parsedEntries_error_mem pages t e ht he)
  refine ⟨e', ?_⟩
  unfold mergeRanges parseKeptRanges
  rw [if_pos hne, he']

/-! ### Attribute bookkeeping -/

/-- Every attribute built from the merged ranges is named `page-ranges`,
so the filter keeps them all. -/
lemma filter_pageRangeAttrs (m : List (Int × Int)) :
    (pageRangeAttrs m).filter (fun a => a.name == "page-ranges")
      = pageRangeAttrs m := by
  induction m with
  | nil => rfl
  | cons hd tl ih =>
      simp only [pageRangeAttrs, List.map_cons, List.filter_cons] at ih ⊢
      rw [if_pos (by rfl)]
      rw [ih]

/-- Filtering the attributes of the built operation for `page-ranges` yields
exactly the attributes built from the merged ranges. -/
lemma filter_jobAttributes (o : PrintOptions) (m : List (Int × Int)) :
    (jobAttributes o m).filter (fun a => a.name == "page-ranges")
      = pageRangeAttrs m := by
  unfold jobAttributes
  rw [List.filter_append, List.filter_append, filter_pageRangeAttrs]
  rw [show ([IppAttribute.mk "sides" (.Keyword (duplexVariantName o.sides)),
        IppAttribute.mk "print-color-mode"
          (.Keyword (colorVariantName o.color_mode))].filter
        (fun a => a.name == "page-ranges")) = [] from rfl]
  rw [show ([IppAttribute.mk "copies"
        (.Integer (i32FromU32 o.copies))].filter
        (fun a => a.name == "page-ranges")) = [] from rfl]
  simp

/-- The copies attribute is the last attribute of the built operation. -/
lemma jobAttributes_getLast (o : PrintOptions) (m : List (Int × Int)) :
    (jobAttributes o m).getLast? =
      some (IppAttribute.mk "copies" (.Integer (i32FromU32 o.copies))) := by
  unfold jobAttributes
  exact List.getLast?_concat _

/-- A no-error entry list collects successfully. -/
lemma collectRanges_ok_of_no_error :
    ∀ (es : List (Except ParseRangeError (Int × Int))),
      (∀ x ∈ es, ∃ r, x = .ok r) → ∃ l, collectRanges es = .ok l := by
  intro es
  induction es with
  | nil => intro _; exact ⟨[], rfl⟩
  | cons hd tl ih =>
      intro h
      obtain ⟨r, hr⟩ := h hd (List.mem_cons_self _ _)
      subst hr
      obtain ⟨l, hl⟩ := ih (fun x hx => h x (List.mem_cons_of_mem _ hx))
      exact ⟨r :: l, by simp [collectRanges, hl]⟩

/-! ## Claims -/

/-- Claim C1, counterexample.  The merge step is not union-preserving: for
the input `1-10,2-3` both entries are kept (both satisfy `end > start`),
sorting leaves `[(1,10),(2,3)]`, and coalescing merges them into
`(prevStart, thisEnd) = (1,3)` because `10 >= 2`, so page 5 is covered by
the kept input ranges but not by the merged output. -/
theorem C1_counterexample :
    parseKeptRanges "1-10,2-3" = .ok [(1, 10), (2, 3)] ∧
    mergeRanges "1-10,2-3" = .ok [(1, 3)] ∧
    coveredP [((1 : Int), (10 : Int)), (2, 3)] 5 ∧
    ¬ coveredP [((1 : Int), (3 : Int))] 5 := by
  decide

/-- Claim C1, amended.  For every page-range input that parses
successfully, the merged output is strictly ascending by start, each range
is valid (`start < end`), consecutive ranges are separated (each ends
strictly before the next begins, so no overlap and no numeric touching),
and its union is contained in (not necessarily equal to) the union of the
kept input ranges. -/
theorem C1_merge_invariants (pages : String) (kept out : List (Int × Int))
    (hk : parseKeptRanges pages = .ok kept)
    (hm : mergeRanges pages = .ok out) :
    out.Pairwise (fun a b => a.1 < b.1) ∧
    (∀ r ∈ out, r.1 < r.2) ∧
    out.Chain' (fun a b => a.2 < b.1) ∧
    (∀ n : Int, coveredP out n → coveredP kept n) := by
  have hv := parseKeptRanges_valid pages kept hk
  rw [mergeRanges_eq pages kept hk] at hm
  injection hm with hm
  subst hm
  obtain ⟨hv', hc'⟩ := mergeStep_valid_sep kept hv
  exact ⟨sep_valid_pairwise_lt _ hv' hc', hv', hc',
    fun n hn => mergeStep_cover kept n hn⟩

/-- Claim C1, witness for the amended theorem at the input `1-3,5-7`. -/
theorem C1_merge_invariants_witness :
    ([((1 : Int), (3 : Int)), (5, 7)].Pairwise (fun a b => a.1 < b.1)) ∧
    (∀ r ∈ [((1 : Int), (3 : Int)), (5, 7)], r.1 < r.2) ∧
    ([((1 : Int), (3 : Int)), (5, 7)].Chain' (fun a b => a.2 < b.1)) ∧
    (∀ n : Int, coveredP [((1 : Int), (3 : Int)), (5, 7)] n →
      coveredP [((1 : Int), (3 : Int)), (5, 7)] n) :=
  C1_merge_invariants "1-3,5-7" [(1, 3), (5, 7)] [(1, 3), (5, 7)]
    (by decide) (by decide)

/-- Claim C2, counterexample.  A dashed term with a non-integer endpoint
fails, but the resulting error names only the offending endpoint substring
(`bad_range = "x"`), not the comma-separated term `3-x` itself. -/
theorem C2_counterexample :
    parse_range "3-x" = .error ⟨.invalidDigit, "x"⟩ ∧
    mergeRanges "3-x" = .error ⟨.invalidDigit, "x"⟩ ∧
    ("x" : String) ≠ "3-x" := by
  decide

/-- Claim C2, amended.  Kept entries always satisfy `end > start`, so every
successfully parsed pair with `end == start` (including every bare
single-page term) is silently dropped; an all-ok term list never produces
an error (the drop is silent); any term-parse failure propagates as a
range-parse error and is never dropped; and the error names the offending
endpoint substring of the term (which is the whole term only when the term
has no dash). -/
theorem C2_filter_and_errors (pages term : String) (e : ParseRangeError)
    (kept : List (Int × Int)) :
    (parseKeptRanges pages = .ok kept →
      (∀ r ∈ kept, r.1 < r.2) ∧ ∀ n : Int, (n, n) ∉ kept) ∧
    ((∀ t ∈ splitComma pages, ∃ r, parse_range (trim t) = .ok r) →
      ∃ l, parseKeptRanges pages = .ok l) ∧
    (trim pages ≠ "" →
      (∃ t ∈ splitComma pages, ∃ e', parse_range (trim t) = .error e') →
      ∃ e', mergeRanges pages = .error e') ∧
    (parse_range term = .error e →
      e.bad_range = (rangeEndpoints term).1 ∨
        e.bad_range = (rangeEndpoints term).2) := by
  refine ⟨?_, ?_, mergeRanges_error pages, parse_range_names term e⟩
  · intro h
    have hv := parseKeptRanges_valid pages kept h
    refine ⟨hv, ?_⟩
    intro n hn
    have := hv (n, n) hn
    simp at this
  · intro h
    unfold parseKeptRanges
    by_cases he : trim pages = ""
    · rw [if_neg (by simp [he])]
      exact ⟨[], rfl⟩
    · rw [if_pos he]
      apply collectRanges_ok_of_no_error
      intro x hx
      have hx' := (List.mem_filter.1 hx).1
      obtain ⟨t, ht, hxt⟩ := List.mem_map.1 hx'
      obtain ⟨r, hr⟩ := h t ht
      exact ⟨r, by rw [← hxt, hr]⟩

/-- Claim C2, witness for the amended theorem: `5,3-8` keeps only `(3,8)`
and drops the bare page 5; an all-ok input collects; `3-y` fails and the
failure propagates; and the `3-x` error names the endpoint `x`. -/
theorem C2_filter_and_errors_witness :
    ((∀ r ∈ [((3 : Int), (8 : Int))], r.1 < r.2) ∧
      ∀ n : Int, (n, n) ∉ [((3 : Int), (8 : Int))]) ∧
    (∃ l, parseKeptRanges "5,3-8" = .ok l) ∧
    (∃ e', mergeRanges "3-y" = .error e') ∧
    ((ParseRangeError.mk .invalidDigit "x").bad_range =
        (rangeEndpoints "3-x").1 ∨
      (ParseRangeError.mk .invalidDigit "x").bad_range =
        (rangeEndpoints "3-x").2) :=
  ⟨(C2_filter_and_errors "5,3-8" "3-x" ⟨.invalidDigit, "x"⟩ [(3, 8)]).1
      (by decide),
   (C2_filter_and_errors "5,3-8" "3-x" ⟨.invalidDigit, "x"⟩ []).2.1
      (by
        intro t ht
        have h1 : splitComma "5,3-8" = ["5", "3-8"] := by decide
        rw [h1] at ht
        rcases (by simpa using ht : t = "5" ∨ t = "3-8") with rfl | rfl
        · exact ⟨(5, 5), by decide⟩
        · exact ⟨(3, 8), by decide⟩),
   (C2_filter_and_errors "3-y" "3-x" ⟨.invalidDigit, "x"⟩ []).2.2.1
      (by decide) ⟨"3-y", by decide, ⟨.invalidDigit, "y"⟩, by decide⟩,
   (C2_filter_and_errors "3-y" "3-x" ⟨.invalidDigit, "x"⟩ []).2.2.2
      (by decide)⟩

/-- Claim C3, counterexample.  The gate strips `Bearer ` prefixes with
`trim_start_matches`, so a header value that is not of the form
`Bearer <token>` is passed whole to token verification: when the raw value
itself verifies, the handler is invoked and the response comes from the handler,
not from a 401. -/
theorem C3_counterexample :
    ¬ isBearerForm "tok" ∧
    gateCall (fun s => if s = "tok" then some ⟨some "alice"⟩ else none)
        (fun _ => ⟨200, "handled"⟩) (some (some "tok")) =
      (⟨200, "handled"⟩, true) := by
  constructor
  · rintro ⟨t, ht⟩
    have hlen : ("tok".length : Nat) = ("Bearer " ++ t).length := by rw [ht]
    rw [String.length_append] at hlen
    have h3 : "tok".length = 3 := rfl
    have h7 : "Bearer ".length = 7 := rfl
    omega
  · decide

/-- Claim C3, amended.  An absent header or a header whose value is not
valid UTF-8 is rejected with 401 and an empty body without invoking the
handler; for a present UTF-8 value, every leading `Bearer ` prefix is
stripped and the remainder is parsed/verified as the token: on failure the
gate answers 401 with an empty body without invoking the handler, while on
success the handler is invoked — so a syntactically non-Bearer header is
rejected exactly when its raw value fails verification, not by its form. -/
theorem C3_auth_gate (verify : String → Option Claims)
    (handler : Claims → HttpResponse) (x : String) (c : Claims) :
    gateCall verify handler none = (unauthorizedResponse, false) ∧
    gateCall verify handler (some none) = (unauthorizedResponse, false) ∧
    (verify (stripBearer x) = none →
      gateCall verify handler (some (some x)) = (unauthorizedResponse, false)) ∧
    (verify (stripBearer x) = some c →
      gateCall verify handler (some (some x)) = (handler c, true)) ∧
    unauthorizedResponse = ⟨401, ""⟩ := by
  refine ⟨rfl, rfl, ?_, ?_, rfl⟩
  · intro h
    simp [gateCall, h]
  · intro h
    simp [gateCall, h]

/-- Claim C3, witness for the amended theorem: a non-Bearer header whose
value fails verification is rejected with the 401 response, and a
`Bearer t` header whose token verifies reaches the handler. -/
theorem C3_auth_gate_witness :
    gateCall (fun _ => none) (fun _ => ⟨200, "body"⟩)
        (some (some "Basic zzz")) = (unauthorizedResponse, false) ∧
    gateCall (fun s => if s = "t" then some ⟨some "alice"⟩ else none)
        (fun _ => ⟨200, "body"⟩) (some (some "Bearer t")) =
      ((fun _ => (⟨200, "body"⟩ : HttpResponse)) (⟨some "alice"⟩ : Claims),
        true) :=
  ⟨(C3_auth_gate (fun _ => none) (fun _ => ⟨200, "body"⟩) "Basic zzz"
      ⟨none⟩).2.2.1 rfl,
   (C3_auth_gate (fun s => if s = "t" then some ⟨some "alice"⟩ else none)
      (fun _ => ⟨200, "body"⟩) "Bearer t" ⟨some "alice"⟩).2.2.2.1
      (by decide)⟩

/-- Claim C4.  The page-range merge is idempotent: the full merge step
(filter, stable sort by start, coalesce) is a fixed point on its own
output, and in particular every merged result the handler computes is left
unchanged by re-merging. -/
theorem C4_merge_idempotent (l : List (Int × Int)) (pages : String)
    (out : List (Int × Int)) :
    mergeStepFull (mergeStepFull l) = mergeStepFull l ∧
    (mergeRanges pages = .ok out → mergeStepFull out = out) := by
  refine ⟨mergeStepFull_idem_aux l, ?_⟩
  intro hm
  unfold mergeRanges at hm
  cases hpk : parseKeptRanges pages with
  | error e => rw [hpk] at hm; cases hm
  | ok kept =>
      rw [hpk] at hm
      injection hm with hm
      subst hm
      have hv := parseKeptRanges_valid pages kept hpk
      obtain ⟨hv', hc'⟩ := mergeStep_valid_sep kept hv
      have h1 : (mergeStep kept).filter (fun r => r.2 > r.1) = mergeStep kept :=
        List.filter_eq_self.mpr (fun r hr => by simpa using hv' r hr)
      show mergeStep ((mergeStep kept).filter _) = mergeStep kept
      rw [h1]
      exact mergeStep_fixed _ hv' hc'

/-- Claim C4, witness at a nested input and at the pipeline output for
`1-10,2-3`. -/
theorem C4_merge_idempotent_witness :
    mergeStepFull (mergeStepFull [((1 : Int), (10 : Int)), (2, 3)]) =
      mergeStepFull [((1 : Int), (10 : Int)), (2, 3)] ∧
    mergeStepFull [((1 : Int), (3 : Int))] = [((1 : Int), (3 : Int))] :=
  ⟨(C4_merge_idempotent [(1, 10), (2, 3)] "" []).1,
   (C4_merge_idempotent [] "1-10,2-3" [(1, 3)]).2 (by decide)⟩

/-- Claim C5.  An input that trims to empty merges to the empty sequence
(all pages); the page-range attributes are exactly one `page-ranges`
attribute per merged range, and the built job attributes contain no
`page-ranges` attribute beyond those (none at all when the merged list is
empty). -/
theorem C5_empty_input_and_attrs (pages : String) (o : PrintOptions)
    (m : List (Int × Int)) (h : trim pages = "") :
    mergeRanges pages = .ok [] ∧
    pageRangeAttrs m =
      m.map (fun r => IppAttribute.mk "page-ranges" (.RangeOfInteger r.1 r.2)) ∧
    (jobAttributes o m).filter (fun a => a.name == "page-ranges")
      = pageRangeAttrs m ∧
    pageRangeAttrs [] = [] := by
  refine ⟨mergeRanges_of_trim_empty pages h, ?_, filter_jobAttributes o m, rfl⟩
  simp [pageRangeAttrs]

/-- Claim C5, witness at a whitespace-only input mixing space, vertical
tab, form feed and tab, and a one-range merge result. -/
theorem C5_empty_input_and_attrs_witness :
    mergeRanges " \x0B\x0C\t " = .ok [] ∧
    pageRangeAttrs [((1 : Int), (3 : Int))] =
      [((1 : Int), (3 : Int))].map
        (fun r => IppAttribute.mk "page-ranges" (.RangeOfInteger r.1 r.2)) ∧
    (jobAttributes ⟨.OneSided, .Color, " \x0B\x0C\t ", 1, "title"⟩
        [((1 : Int), (3 : Int))]).filter (fun a => a.name == "page-ranges")
      = pageRangeAttrs [((1 : Int), (3 : Int))] ∧
    pageRangeAttrs [] = [] :=
  C5_empty_input_and_attrs " \x0B\x0C\t "
    ⟨.OneSided, .Color, " \x0B\x0C\t ", 1, "title"⟩ [(1, 3)] (by decide)

/-- Claim C6.  With a verified identity, naming a backend printer absent
from the registry makes the handler return the not-found Actix error,
surfaced as status 404, with only the registry lookup in the effect trace:
the request body is never read or forwarded. -/
theorem C6_unknown_printer (printers : List String) (name : String)
    (user : Claims) (o : PrintOptions) (resp : List (List IppAttribute))
    (uname : String) (hu : user.preferredUsername = some uname)
    (hn : name ∉ printers) :
    (printHandler printers name user o resp).outcome =
      .errored (.actix 404) ∧
    statusCode (KprintError.actix 404) = 404 ∧
    (printHandler printers name user o resp).effects = [.lookup name] ∧
    Effect.readBody ∉ (printHandler printers name user o resp).effects := by
  simp only [printHandler, hu]
  rw [if_neg hn]
  exact ⟨rfl, rfl, rfl, by simp⟩

/-- Claim C6, witness: printer `xerox` against a registry holding only
`hp`. -/
theorem C6_unknown_printer_witness :
    (printHandler ["hp"] "xerox" ⟨some "alice"⟩
        ⟨.OneSided, .Color, "1-3", 1, "t"⟩ []).outcome =
      .errored (.actix 404) ∧
    statusCode (KprintError.actix 404) = 404 ∧
    (printHandler ["hp"] "xerox" ⟨some "alice"⟩
        ⟨.OneSided, .Color, "1-3", 1, "t"⟩ []).effects = [.lookup "xerox"] ∧
    Effect.readBody ∉ (printHandler ["hp"] "xerox" ⟨some "alice"⟩
        ⟨.OneSided, .Color, "1-3", 1, "t"⟩ []).effects :=
  C6_unknown_printer ["hp"] "xerox" ⟨some "alice"⟩
    ⟨.OneSided, .Color, "1-3", 1, "t"⟩ [] "alice" rfl (by decide)

/-- Claim C7, counterexample.  The scan takes the `job-uri` attribute of
the first group that has one and only then checks that it is URI-valued:
when the first such group carries a non-URI `job-uri`, a URI-valued
job-location attribute in a later group is ignored and the job link is
`none`, not that URI rewritten. -/
theorem C7_counterexample :
    (∃ g ∈ [[IppAttribute.mk "job-uri" (.Integer 5)],
            [IppAttribute.mk "job-uri" (.UriVal "http://prints/jobs/1")]],
       ∃ a ∈ g, a.name = "job-uri" ∧ asUri a.value ≠ none) ∧
    extractJobLink
        [[IppAttribute.mk "job-uri" (.Integer 5)],
         [IppAttribute.mk "job-uri" (.UriVal "http://prints/jobs/1")]]
      = none := by
  decide

/-- Claim C7, amended.  The handler looks up the `job-uri` attribute of
the first group containing one.  If no group has such an attribute the job
link is null; if the found attribute is not URI-valued the job link is
likewise null; if it is a URI-valued, parseable URI the returned link is
that URI with its scheme rewritten to `https`; and in every such case the
request still succeeds with the extracted link in the reply. -/
theorem C7_job_link (groups : List (List IppAttribute)) (a : IppAttribute)
    (s : String) (u : UriParts) (printers : List String)
    (name uname : String) (o : PrintOptions) (merged : List (Int × Int)) :
    (findJobUriAttr groups = none → extractJobLink groups = none) ∧
    (findJobUriAttr groups = some a → asUri a.value = none →
      extractJobLink groups = none) ∧
    (findJobUriAttr groups = some a → a.value = .UriVal s →
      parseUri s = some u →
      extractJobLink groups =
        some (uriToString { u with scheme := some "https" })) ∧
    (name ∈ printers → mergeRanges o.pages = .ok merged →
      (printHandler printers name ⟨some uname⟩ o groups).outcome =
        .ok ⟨"lmao", extractJobLink groups⟩) := by
  refine ⟨?_, ?_, ?_, ?_⟩
  · intro h
    simp [extractJobLink, h]
  · intro h ha
    simp [extractJobLink, h, ha]
  · intro h hv hp
    simp [extractJobLink, h, asUri, hv, hp]
  · intro hmem hmg
    simp [printHandler, hmem, hmg]

/-- Claim C7, witness: a single group carrying a URI-valued `job-uri` whose
`http` scheme is rewritten to `https`, on the success path of the
handler. -/
theorem C7_job_link_witness :
    extractJobLink [[IppAttribute.mk "job-uri" (.UriVal "http://prints/jobs/1")]]
      = some (uriToString { scheme := some "https", rest := "prints/jobs/1" }) ∧
    (printHandler ["hp"] "hp" ⟨some "alice"⟩ ⟨.OneSided, .Color, "1-3", 1, "t"⟩
        [[IppAttribute.mk "job-uri" (.UriVal "http://prints/jobs/1")]]).outcome =
      .ok ⟨"lmao",
        extractJobLink
          [[IppAttribute.mk "job-uri" (.UriVal "http://prints/jobs/1")]]⟩ :=
  ⟨(C7_job_link [[IppAttribute.mk "job-uri" (.UriVal "http://prints/jobs/1")]]
      (IppAttribute.mk "job-uri" (.UriVal "http://prints/jobs/1"))
      "http://prints/jobs/1" ⟨some "http", "prints/jobs/1"⟩ ["hp"] "hp" "alice"
      ⟨.OneSided, .Color, "1-3", 1, "t"⟩ [(1, 3)]).2.2.1
      (by decide) (by decide) (by decide),
   (C7_job_link [[IppAttribute.mk "job-uri" (.UriVal "http://prints/jobs/1")]]
      (IppAttribute.mk "job-uri" (.UriVal "http://prints/jobs/1"))
      "http://prints/jobs/1" ⟨some "http", "prints/jobs/1"⟩ ["hp"] "hp" "alice"
      ⟨.OneSided, .Color, "1-3", 1, "t"⟩ [(1, 3)]).2.2.2
      (by decide) (by decide)⟩

/-- Claim C9, counterexample.  A verified token lacking
`preferred_username` does not always cause a panic: the line-124 unwrap is
a `log::debug!` argument that the default Error-level logging never
evaluates, so a request naming an unknown printer is answered with the 404
error response before the line-184 unwrap is reached. -/
theorem C9_counterexample :
    (printHandler ["hp"] "xerox" ⟨none⟩ ⟨.OneSided, .Color, "1-3", 1, "t"⟩
        []).outcome = .errored (.actix 404) ∧
    (printHandler ["hp"] "xerox" ⟨none⟩ ⟨.OneSided, .Color, "1-3", 1, "t"⟩
        []).outcome ≠ .panicked := by
  decide

/-- Claim C9, amended.  The handler unwraps the `preferred_username` claim
of the verified identity without a check when setting the submitting user
name (the logging unwrap is unevaluated under the default Error-level
configuration); the handler never panics when the claim is present, and a
verified token lacking the claim panics exactly on the path that survives
the printer lookup and the page-range merge — after the body forwarding
has begun — while a request failing earlier still gets its 404 or 412
error response rather than a panic. -/
theorem C9_username_unwrap (printers : List String) (name : String)
    (user : Claims) (o : PrintOptions) (resp : List (List IppAttribute))
    (merged : List (Int × Int)) (e : ParseRangeError) :
    (∀ uname, user.preferredUsername = some uname →
      (printHandler printers name user o resp).outcome ≠ .panicked) ∧
    (user.preferredUsername = none → name ∈ printers →
      mergeRanges o.pages = .ok merged →
      printHandler printers name user o resp =
        { effects := [.lookup name, .readBody], outcome := .panicked }) ∧
    (user.preferredUsername = none → name ∉ printers →
      (printHandler printers name user o resp).outcome =
        .errored (.actix 404)) ∧
    (user.preferredUsername = none → name ∈ printers →
      mergeRanges o.pages = .error e →
      (printHandler printers name user o resp).outcome =
        .errored (.pageRange e)) := by
  refine ⟨?_, ?_, ?_, ?_⟩
  · intro uname h
    simp only [printHandler]
    by_cases hm : name ∈ printers
    · rw [if_pos hm]
      cases hmr : mergeRanges o.pages <;> simp [h]
    · rw [if_neg hm]
      simp
  · intro h hm hmg
    simp [printHandler, hm, hmg, h]
  · intro h hm
    simp [printHandler, hm]
  · intro h hm hmg
    simp [printHandler, hm, hmg]

/-- Claim C9, witness: with `preferred_username` present the handler does
not panic; absent, it panics after lookup and body-forward start on a
mergeable request, and an unknown printer still yields the 404 error
response. -/
theorem C9_username_unwrap_witness :
    (printHandler ["hp"] "hp" ⟨some "alice"⟩ ⟨.OneSided, .Color, "1-3", 1, "t"⟩
        []).outcome ≠ .panicked ∧
    printHandler ["hp"] "hp" ⟨none⟩ ⟨.OneSided, .Color, "1-3", 1, "t"⟩ [] =
      { effects := [.lookup "hp", .readBody], outcome := .panicked } ∧
    (printHandler ["hp"] "xerox2" ⟨none⟩ ⟨.OneSided, .Color, "1-3", 1, "t"⟩
        []).outcome = .errored (.actix 404) :=
  ⟨(C9_username_unwrap ["hp"] "hp" ⟨some "alice"⟩
      ⟨.OneSided, .Color, "1-3", 1, "t"⟩ [] [] ⟨.empty, ""⟩).1 "alice" rfl,
   (C9_username_unwrap ["hp"] "hp" ⟨none⟩
      ⟨.OneSided, .Color, "1-3", 1, "t"⟩ [] [(1, 3)] ⟨.empty, ""⟩).2.1 rfl
      (by decide) (by decide),
   (C9_username_unwrap ["hp"] "xerox2" ⟨none⟩
      ⟨.OneSided, .Color, "1-3", 1, "t"⟩ [] [] ⟨.empty, ""⟩).2.2.1 rfl
      (by decide)⟩

/-- Claim C10.  The `copies` attribute attached to the job is the `u32`
query value cast with `as i32`: it is the last attribute of the built
operation; every value up to `2^31 - 1` is attached unchanged, while every
larger `u32` value wraps (congruent modulo `2^32`) to a negative attribute
value instead of being rejected. -/
theorem C10_copies_cast (o : PrintOptions) (m : List (Int × Int)) :
    (jobAttributes o m).getLast? =
      some (IppAttribute.mk "copies" (.Integer (i32FromU32 o.copies))) ∧
    (o.copies ≤ 2 ^ 31 - 1 → i32FromU32 o.copies = (o.copies : Int)) ∧
    (2 ^ 31 ≤ o.copies → o.copies < 2 ^ 32 →
      i32FromU32 o.copies < 0 ∧
      i32FromU32 o.copies = (o.copies : Int) - 2 ^ 32 ∧
      (i32FromU32 o.copies - (o.copies : Int)) % 2 ^ 32 = 0) := by
  refine ⟨jobAttributes_getLast o m, ?_, ?_⟩
  · intro h
    unfold i32FromU32
    rw [if_pos (by omega)]
  · intro h1 h2
    unfold i32FromU32
    rw [if_neg (by omega)]
    refine ⟨by omega, rfl, ?_⟩
    have he : (o.copies : Int) - 2 ^ 32 - (o.copies : Int) = -(2 ^ 32) := by
      ring
    rw [he]
    decide

/-- Claim C10, witness at `copies = 2^31`, the smallest wrapping value. -/
theorem C10_copies_cast_witness :
    (jobAttributes ⟨.OneSided, .Color, "", 2 ^ 31, "t"⟩ []).getLast? =
      some (IppAttribute.mk "copies" (.Integer (i32FromU32 (2 ^ 31)))) ∧
    (i32FromU32 (2 ^ 31) < 0 ∧
      i32FromU32 (2 ^ 31) = ((2 ^ 31 : Nat) : Int) - 2 ^ 32 ∧
      (i32FromU32 (2 ^ 31) - ((2 ^ 31 : Nat) : Int)) % 2 ^ 32 = 0) :=
  ⟨(C10_copies_cast ⟨.OneSided, .Color, "", 2 ^ 31, "t"⟩ []).1,
   (C10_copies_cast ⟨.OneSided, .Color, "", 2 ^ 31, "t"⟩ []).2.2
      (by decide) (by decide)⟩

end Kprint
